import Mathlib

/-!
Shallow embedding of `src/advanced-vector/vector.h`.

The C++ `Vector<T>` holds a `RawMemory<T>` arena (`data_`) and a logical
element count (`size_`); slots `[0, size_)` hold live elements, slots
`[size_, capacity)` are uninitialized.  The observable state of a container
is therefore the list of live element values together with the arena
capacity, which is what the `Vector` structure below records; `size_` is the
length of that list.  Each operation of the C++ class is translated into a
pure function on this state, following the control flow of the source
(including the source's naming of the two `Emplace` helper paths:
`InsertWithoutRelocation` is the path taken when `size_ == Capacity()` and it
allocates a fresh arena, while `InsertWithRelocation` is the in-place
shifting path taken when spare capacity exists).

Separate, finer-grained models are given where a claim needs them:
* fallible element copies (`Except`-valued copy functions) for the
  copy-assignment strong-guarantee claim;
* an explicit move-vs-copy relocation strategy (`FillNewData`) for the
  claim that the two relocation paths agree observably;
* a slot-liveness/event trace of the in-place insertion path for the
  rollback claim, which must speak about which slots are constructed when
  the `catch` handler runs.
-/

namespace AdvancedVector

/-- Observable state of `Vector<T>` (vector.h, lines 88-311): the live
elements in slots `[0, size_)` and the capacity of the owned `RawMemory`
arena. -/
structure Vector (α : Type) where
  elems : List α
  cap : Nat
deriving Repr, DecidableEq

namespace Vector

variable {α : Type}

/-- `size_` of the container: the number of live elements. -/
def size (v : Vector α) : Nat := v.elems.length

/-- `Capacity()` (line 199): the capacity of the owned arena. -/
def Capacity (v : Vector α) : Nat := v.cap

/-- Default constructor `Vector()` (line 94): empty, capacity 0. -/
def empty : Vector α := { elems := [], cap := 0 }

/-- Sized constructor `Vector(size_t size)` (lines 96-101): allocates
capacity `size` and value-constructs `size` elements. -/
def mkSized [Inhabited α] (n : Nat) : Vector α :=
  { elems := List.replicate n default, cap := n }

/-- Copy constructor (lines 103-108): allocates capacity `other.size_` and
copy-constructs the `other.size_` live elements. -/
def copyOf (other : Vector α) : Vector α :=
  { elems := other.elems, cap := other.size }

/-- Move constructor (lines 110-114): adopts the source arena and size;
the source is left empty with capacity 0.  Returns (constructed, source
after). -/
def moveOf (other : Vector α) : Vector α × Vector α :=
  ({ elems := other.elems, cap := other.cap }, { elems := [], cap := 0 })

/-- `Swap` (lines 150-153): exchanges arena and size.  Returns the pair
(this after, other after). -/
def Swap (a b : Vector α) : Vector α × Vector α := (b, a)

/-- `Reserve` (lines 155-163): no-op when `new_capacity <= Capacity()`;
otherwise relocates the live elements into a fresh arena of capacity
`new_capacity` (FillNewData), destroys the old ones and adopts the new
arena. -/
def Reserve (v : Vector α) (new_capacity : Nat) : Vector α :=
  if new_capacity ≤ v.Capacity then v
  else { elems := v.elems, cap := new_capacity }

/-- `Resize` (lines 165-177): shrinking destroys the trailing elements;
growing first reserves `max (Capacity() * 2) new_size` when `new_size`
exceeds capacity, then value-constructs the missing trailing elements. -/
def Resize [Inhabited α] (v : Vector α) (new_size : Nat) : Vector α :=
  if new_size < v.size then
    { elems := v.elems.take new_size, cap := v.cap }
  else
    let v1 := if new_size > v.Capacity then v.Reserve (max (v.Capacity * 2) new_size) else v
    { elems := v1.elems ++ List.replicate (new_size - v.size) default, cap := v1.cap }

/-- Reallocating path of `Emplace` (lines 297-310, `InsertWithoutRelocation`,
taken when `size_ == Capacity()`): allocates a new arena of capacity
`size_ == 0 ? 1 : size_ * 2`, constructs the new element at `iterator_pos`
in it and relocates the old elements on either side. -/
def InsertWithoutRelocation (v : Vector α) (iterator_pos : Nat) (x : α) : Vector α :=
  let new_cap := if v.size = 0 then 1 else v.size * 2
  { elems := v.elems.insertIdx iterator_pos x, cap := new_cap }

/-- In-place path of `Emplace` (lines 278-295, `InsertWithRelocation`, taken
when spare capacity exists): builds a temporary, move-constructs the last
element one slot forward, shifts `[iterator_pos, size_-1)` backward and
move-assigns the temporary into the slot; capacity is unchanged. -/
def InsertWithRelocation (v : Vector α) (iterator_pos : Nat) (x : α) : Vector α :=
  { elems := v.elems.insertIdx iterator_pos x, cap := v.cap }

/-- `Emplace` (lines 236-247): computes `iterator_pos = pos - begin()`,
dispatches on `size_ == Capacity()`, increments `size_` and returns
`begin() + iterator_pos`.  The model returns the new state and the offset
of the returned iterator. -/
def Emplace (v : Vector α) (pos : Nat) (x : α) : Vector α × Nat :=
  let iterator_pos := pos
  let v1 :=
    if v.size = v.Capacity then v.InsertWithoutRelocation iterator_pos x
    else v.InsertWithRelocation iterator_pos x
  (v1, iterator_pos)

/-- `Insert` (lines 257-263): forwards to `Emplace`. -/
def Insert (v : Vector α) (pos : Nat) (x : α) : Vector α × Nat :=
  v.Emplace pos x

/-- `EmplaceBack` (lines 190-193): `Emplace` at `end()`; returns the new
state and the offset of the element the returned reference denotes. -/
def EmplaceBack (v : Vector α) (x : α) : Vector α × Nat :=
  v.Emplace v.size x

/-- `PushBack` (lines 179-182): forwards to `EmplaceBack`. -/
def PushBack (v : Vector α) (x : α) : Vector α :=
  (v.EmplaceBack x).1

/-- `PopBack` (lines 184-188): destroys the last element and decrements
`size_` (precondition `size_ != 0`). -/
def PopBack (v : Vector α) : Vector α :=
  { elems := v.elems.dropLast, cap := v.cap }

/-- `Erase` (lines 249-255): move-assigns `[pos+1, end())` one slot backward
onto `[pos, end()-1)`, pops the vacated last slot, and returns
`begin() + pos`.  The model returns the new state and the offset of the
returned iterator. -/
def Erase (v : Vector α) (pos : Nat) : Vector α × Nat :=
  let iterator_pos := pos
  ({ elems := v.elems.eraseIdx iterator_pos, cap := v.cap }, iterator_pos)

/-- Copy assignment `operator=` (lines 116-137).  The pointer comparison
`this != &rhs` is modelled by the flag `sameObject`.  When the right-hand
size exceeds this capacity, a temporary copy is built and swapped in;
otherwise the common prefix is assigned element-wise, then either the
trailing excess is destroyed (shrinking) or the remaining right-hand
elements are copy-constructed (growing within capacity), and `size_` is set
to `rhs.size_`. -/
def opAssignCopy (sameObject : Bool) (lhs rhs : Vector α) : Vector α :=
  if sameObject then lhs
  else if rhs.size > lhs.Capacity then
    (Swap lhs (copyOf rhs)).1
  else
    let common := min lhs.size rhs.size
    let afterLoop := rhs.elems.take common ++ lhs.elems.drop common
    if lhs.size > rhs.size then
      { elems := afterLoop.take rhs.size, cap := lhs.cap }
    else
      { elems := afterLoop ++ rhs.elems.drop common, cap := lhs.cap }

/-- Move assignment `operator=` (lines 139-144): swap with the source unless
assigning to self.  Returns (this after, rhs after). -/
def opAssignMove (sameObject : Bool) (lhs rhs : Vector α) : Vector α × Vector α :=
  if sameObject then (lhs, rhs) else Swap lhs rhs

/-- Structural invariant of the container (spec section 3): at most
`capacity` live elements. -/
def Inv (v : Vector α) : Prop := v.size ≤ v.Capacity

instance (v : Vector α) : Decidable v.Inv := by
  unfold Inv; infer_instance

/-- Fallible element-wise copy construction, modelling
`std::uninitialized_copy_n` with a copy constructor `f` that may fail: on
failure the already-constructed prefix is destroyed and the error
propagates. -/
def uninitializedCopyF {ε : Type} (f : α → Except ε α) : List α → Except ε (List α)
  | [] => Except.ok []
  | x :: xs =>
    match f x with
    | Except.error e => Except.error e
    | Except.ok y =>
      match uninitializedCopyF f xs with
      | Except.error e => Except.error e
      | Except.ok ys => Except.ok (y :: ys)

/-- Copy constructor (lines 103-108) with fallible element copies `f`. -/
def copyOfF {ε : Type} (f : α → Except ε α) (other : Vector α) : Except ε (Vector α) :=
  match uninitializedCopyF f other.elems with
  | Except.error e => Except.error e
  | Except.ok l => Except.ok { elems := l, cap := other.size }

/-- Prefix-assignment loop of copy assignment (lines 123-126) with fallible
element copy assignment: assigns the source prefix onto the destination
prefix in order; on failure returns the partially assigned destination (the
failing slot keeps its old value). -/
def assignLoopF {ε : Type} (f : α → Except ε α) : List α → List α → Except (List α) (List α)
  | dst, [] => Except.ok dst
  | [], _ :: _ => Except.ok []
  | d :: ds, s :: ss =>
    match f s with
    | Except.error _ => Except.error (d :: ds)
    | Except.ok y =>
      match assignLoopF f ds ss with
      | Except.error ds1 => Except.error (y :: ds1)
      | Except.ok ds1 => Except.ok (y :: ds1)

/-- Copy assignment (lines 116-137) with fallible element copies, for
distinct objects.  `Except.error` carries the state of the left-hand
container at the moment the failure propagates; `Except.ok` carries the
state after a successful assignment. -/
def opAssignCopyF {ε : Type} (f : α → Except ε α) (lhs rhs : Vector α) :
    Except (Vector α) (Vector α) :=
  if rhs.size > lhs.Capacity then
    match copyOfF f rhs with
    | Except.error _ => Except.error lhs
    | Except.ok copied_rhs => Except.ok (Swap lhs copied_rhs).1
  else
    let common := min lhs.size rhs.size
    match assignLoopF f (lhs.elems.take common) (rhs.elems.take common) with
    | Except.error partDst =>
        Except.error { elems := partDst ++ lhs.elems.drop common, cap := lhs.cap }
    | Except.ok assigned =>
        if lhs.size > rhs.size then
          Except.ok { elems := (assigned ++ lhs.elems.drop common).take rhs.size, cap := lhs.cap }
        else
          match uninitializedCopyF f (rhs.elems.drop common) with
          | Except.error _ =>
              Except.error { elems := assigned ++ lhs.elems.drop common, cap := lhs.cap }
          | Except.ok extra =>
              Except.ok { elems := (assigned ++ lhs.elems.drop common) ++ extra, cap := lhs.cap }

/-- Relocation of the first `n` source elements by move construction
(`std::uninitialized_move_n`, line 271/303): returns the new-arena contents
together with the liveness the source slots keep (`false`: moved-from). -/
def uninitialized_move_n : List α → Nat → List α × List Bool
  | _, 0 => ([], [])
  | [], _ + 1 => ([], [])
  | x :: xs, n + 1 =>
    let r := uninitialized_move_n xs n
    (x :: r.1, false :: r.2)

/-- Relocation of the first `n` source elements by copy construction
(`std::uninitialized_copy_n`, line 274/306): the source slots stay live. -/
def uninitialized_copy_n : List α → Nat → List α × List Bool
  | _, 0 => ([], [])
  | [], _ + 1 => ([], [])
  | x :: xs, n + 1 =>
    let r := uninitialized_copy_n xs n
    (x :: r.1, true :: r.2)

/-- `FillNewData` (lines 269-276) with the compile-time strategy selection
`is_nothrow_move_constructible_v || !is_copy_constructible_v` made an
explicit parameter `strat` (`true`: move path, `false`: copy path). -/
def FillNewData (strat : Bool) (src : List α) (n : Nat) : List α × List Bool :=
  if strat then uninitialized_move_n src n else uninitialized_copy_n src n

/-- `Reserve` (lines 155-163) with the relocation strategy explicit. -/
def ReserveStrat (strat : Bool) (v : Vector α) (new_capacity : Nat) : Vector α :=
  if new_capacity ≤ v.Capacity then v
  else { elems := (FillNewData strat v.elems v.size).1, cap := new_capacity }

/-- Reallocating insertion path (lines 297-310) with the relocation strategy
explicit: the new element is built at `iterator_pos` in the new arena, the
prefix is relocated by `FillNewData` and the tail by the same
strategy-selected primitive. -/
def InsertWithoutRelocationStrat (strat : Bool) (v : Vector α) (iterator_pos : Nat)
    (x : α) : Vector α :=
  let new_cap := if v.size = 0 then 1 else v.size * 2
  { elems := (FillNewData strat v.elems iterator_pos).1
      ++ x :: (if strat then
            uninitialized_move_n (v.elems.drop iterator_pos) (v.size - iterator_pos)
          else
            uninitialized_copy_n (v.elems.drop iterator_pos) (v.size - iterator_pos)).1,
    cap := new_cap }

end Vector

/-- Constructed-ness of one arena slot. -/
inductive SlotState where
  | raw
  | constructed
deriving Repr, DecidableEq

/-- Events the rollback (catch handler) of the in-place insertion path can
emit: an element destructor call, or a raw storage release with no
destructor. -/
inductive RollbackEvent where
  | destructorCall (idx : Nat)
  | rawRelease (idx : Nat)
deriving Repr, DecidableEq

/-- Potentially-throwing steps of `InsertWithRelocation` (lines 278-295), in
execution order. -/
inductive InsStep where
  | ctorTemp
  | moveConstructLast
  | shiftAssign (dst : Nat)
  | assignTemp (dst : Nat)
  | ctorAtEnd
deriving Repr, DecidableEq

/-- The ordered throwing steps the in-place path executes for a container of
`size` live elements when inserting at `iterator_pos`: for an interior
position, temporary construction, move-construction of the last element into
`end()`, the backward shift assignments, and the final move-assignment of
the temporary; for insertion at `end()`, a single placement construction. -/
def insStepsOf (size iterator_pos : Nat) : List InsStep :=
  if iterator_pos = size then [InsStep.ctorAtEnd]
  else InsStep.ctorTemp :: InsStep.moveConstructLast ::
    ((List.range (size - 1 - iterator_pos)).map (fun k => InsStep.shiftAssign (size - 1 - k))
      ++ [InsStep.assignTemp iterator_pos])

/-- Effect of one step on slot constructed-ness (`endIdx` is the offset of
`end()`): only the two constructing steps change it; assignments operate on
already-constructed slots. -/
def applyInsStep (endIdx : Nat) (st : InsStep) (slots : List SlotState) : List SlotState :=
  match st with
  | InsStep.moveConstructLast => slots.set endIdx SlotState.constructed
  | InsStep.ctorAtEnd => slots.set endIdx SlotState.constructed
  | _ => slots

/-- Runs the steps with an exception injected at step number `failAt`: the
failing step has no effect (a throwing construction constructs nothing) and
the slot states at that moment are returned as the error. -/
def runInsSteps (endIdx : Nat) (slots : List SlotState) :
    List InsStep → Nat → Except (List SlotState) (List SlotState)
  | [], _ => Except.ok slots
  | _ :: _, 0 => Except.error slots
  | st :: rest, failAt + 1 =>
      runInsSteps endIdx (applyInsStep endIdx st slots) rest failAt

/-- Result of a failed in-place insertion: the slot states at the moment the
exception reaches the catch handler, and the events that handler emits. -/
structure InsertFailure where
  slots : List SlotState
  events : List RollbackEvent
deriving Repr, DecidableEq

/-- The in-place insertion path `InsertWithRelocation` (lines 278-295) at
slot-liveness level, with the exception injected at throwing step number
`failAt` (steps counted from 0; `failAt` at or past the number of steps
means no exception).  The catch handler (lines 291-294) executes
`operator delete(end())` and rethrows: it emits exactly one raw release of
the trailing slot and no destructor call. -/
def InsertWithRelocationProbe (size cap iterator_pos failAt : Nat) :
    Except InsertFailure (List SlotState) :=
  let slots0 := List.replicate size SlotState.constructed
      ++ List.replicate (cap - size) SlotState.raw
  match runInsSteps size slots0 (insStepsOf size iterator_pos) failAt with
  | Except.error slots =>
      Except.error { slots := slots, events := [RollbackEvent.rawRelease size] }
  | Except.ok slots => Except.ok slots

end AdvancedVector

namespace AdvancedVector

open Vector

/-- Insertion at an index within bounds splits the list around the new
element. -/
theorem insertIdx_eq_take_cons_drop {α : Type} (l : List α) (n : Nat) (x : α)
    (h : n ≤ l.length) :
    l.insertIdx n x = l.take n ++ x :: l.drop n := by
  induction l generalizing n with
  | nil =>
    have h0 : n = 0 := Nat.le_zero.mp h
    subst h0
    simp [List.insertIdx]
  | cons a as ih =>
    cases n with
    | zero => simp [List.insertIdx]
    | succ m =>
      simp only [List.insertIdx_succ_cons, List.take_succ_cons, List.drop_succ_cons,
        List.cons_append, List.cons.injEq, true_and]
      exact ih m (Nat.le_of_succ_le_succ h)

/-- C1: from the default-constructed container, `EmplaceBack 1; EmplaceBack
2; EmplaceBack 3` gives size 3, capacity 4 (capacities grow 1, 2, 4) and
elements `[1, 2, 3]`; inserting 9 at position 1 gives `[1, 9, 2, 3]` of size
4; erasing at position 0 gives `[9, 2, 3]` of size 3. -/
theorem scenario_emplace_insert_erase :
    (((Vector.empty : Vector Nat).EmplaceBack 1).1.Capacity = 1
      ∧ (((Vector.empty : Vector Nat).EmplaceBack 1).1.EmplaceBack 2).1.Capacity = 2)
    ∧ ((((Vector.empty : Vector Nat).EmplaceBack 1).1.EmplaceBack 2).1.EmplaceBack 3).1
        = { elems := [1, 2, 3], cap := 4 }
    ∧ (((({ elems := [1, 2, 3], cap := 4 } : Vector Nat).Insert 1 9).1
        = { elems := [1, 9, 2, 3], cap := 4 })
      ∧ (({ elems := [1, 9, 2, 3], cap := 4 } : Vector Nat).Erase 0).1
        = { elems := [9, 2, 3], cap := 4 })
    ∧ ((({ elems := [1, 2, 3], cap := 4 } : Vector Nat).Insert 1 9).1.size = 4
      ∧ (({ elems := [1, 9, 2, 3], cap := 4 } : Vector Nat).Erase 0).1.size = 3) := by
  decide

/-- C3: `Reserve n` is a no-op when `n ≤ Capacity()`, and otherwise sets the
capacity to exactly `n` while leaving the size and the element sequence
unchanged; `Reserve 10` on the empty container gives capacity 10, size 0,
and a following `Reserve 5` leaves the capacity at 10. -/
theorem reserve_spec (v : Vector Nat) (n : Nat) :
    (n ≤ v.Capacity → v.Reserve n = v)
    ∧ (v.Capacity < n →
        (v.Reserve n).Capacity = n
        ∧ (v.Reserve n).elems = v.elems
        ∧ (v.Reserve n).size = v.size)
    ∧ ((Vector.empty : Vector Nat).Reserve 10).Capacity = 10
    ∧ ((Vector.empty : Vector Nat).Reserve 10).size = 0
    ∧ (((Vector.empty : Vector Nat).Reserve 10).Reserve 5).Capacity = 10 := by
  refine ⟨?_, ?_, by decide, by decide, by decide⟩
  · intro h
    simp [Vector.Reserve, h]
  · intro h
    have h' : ¬ n ≤ v.cap := Nat.not_le.mpr h
    simp [Vector.Reserve, Vector.Capacity, Vector.size, h']

/-- C3 witness at concrete inputs. -/
theorem reserve_spec_witness :
    (({ elems := [5], cap := 3 } : Vector Nat).Reserve 2 = { elems := [5], cap := 3 })
    ∧ (({ elems := [5], cap := 3 } : Vector Nat).Reserve 7).Capacity = 7 :=
  ⟨(reserve_spec { elems := [5], cap := 3 } 2).1 (by decide),
   ((reserve_spec { elems := [5], cap := 3 } 7).2.1 (by decide)).1⟩

/-- C4: after `Resize n` the size is `n` and elements below `min old_size n`
are unchanged; shrinking keeps the capacity and truncates; growing appends
`n - old_size` default-constructed elements; and when `n` exceeds the
capacity the new capacity is `max (2 * old capacity) n`. -/
theorem resize_spec (v : Vector Nat) (n : Nat) (hInv : v.Inv) :
    (v.Resize n).size = n
    ∧ (∀ i, i < min v.size n → ((v.Resize n).elems)[i]? = v.elems[i]?)
    ∧ (n < v.size → (v.Resize n).Capacity = v.Capacity
        ∧ (v.Resize n).elems = v.elems.take n)
    ∧ (v.size ≤ n → (v.Resize n).elems
        = v.elems ++ List.replicate (n - v.size) default)
    ∧ (v.Capacity < n → (v.Resize n).Capacity = max (v.Capacity * 2) n) := by
  obtain ⟨es, c⟩ := v
  have hInv' : es.length ≤ c := hInv
  by_cases hn : n < es.length
  · have hcn : ¬ c < n := by omega
    refine ⟨?_, ?_, fun _ => ⟨?_, ?_⟩, fun h => absurd h (by simp [Vector.size]; omega), fun h => absurd h hcn⟩
    · simp [Vector.Resize, Vector.size, hn]
      omega
    · intro i hi
      simp [Vector.size] at hi
      simp [Vector.Resize, Vector.size, hn]
      exact List.getElem?_take_of_lt (by omega)
    · simp [Vector.Resize, Vector.size, Vector.Capacity, hn]
    · simp [Vector.Resize, Vector.size, hn]
  · have hn' : es.length ≤ n := Nat.le_of_not_lt hn
    by_cases hc : c < n
    · have hr : ¬ max (c * 2) n ≤ c := by omega
      refine ⟨?_, ?_, fun h => absurd h (by simp [Vector.size]; omega), fun _ => ?_, fun _ => ?_⟩
      · simp [Vector.Resize, Vector.size, Vector.Capacity, Vector.Reserve, hn, hc, hr]
        omega
      · intro i hi
        simp [Vector.size] at hi
        simp [Vector.Resize, Vector.size, Vector.Capacity, Vector.Reserve, hn, hc, hr]
        exact List.getElem?_append_left (by omega)
      · simp [Vector.Resize, Vector.size, Vector.Capacity, Vector.Reserve, hn, hc, hr]
      · simp [Vector.Resize, Vector.size, Vector.Capacity, Vector.Reserve, hn, hc, hr]
    · refine ⟨?_, ?_, fun h => absurd h (by simp [Vector.size]; omega), fun _ => ?_, fun h => absurd h hc⟩
      · simp [Vector.Resize, Vector.size, Vector.Capacity, hn, hc]
        omega
      · intro i hi
        simp [Vector.size] at hi
        simp [Vector.Resize, Vector.size, Vector.Capacity, hn, hc]
        exact List.getElem?_append_left (by omega)
      · simp [Vector.Resize, Vector.size, Vector.Capacity, hn, hc]

/-- C4 witness at concrete inputs: a shrink and a capacity-doubling grow. -/
theorem resize_spec_witness :
    (({ elems := [4, 5, 6], cap := 3 } : Vector Nat).Resize 2).size = 2
    ∧ (({ elems := [4, 5, 6], cap := 3 } : Vector Nat).Resize 7).Capacity = max (3 * 2) 7 :=
  ⟨(resize_spec { elems := [4, 5, 6], cap := 3 } 2 (by decide)).1,
   (resize_spec { elems := [4, 5, 6], cap := 3 } 7 (by decide)).2.2.2.2 (by decide)⟩

/-- C7: inserting a value at any valid position and immediately erasing at
that position restores the original element sequence and size. -/
theorem insert_erase_roundtrip (v : Vector Nat) (pos : Nat) (x : Nat) :
    ((v.Insert pos x).1.Erase pos).1.elems = v.elems
    ∧ ((v.Insert pos x).1.Erase pos).1.size = v.size := by
  constructor
  · simp [Vector.Insert, Vector.Emplace, Vector.Erase, Vector.InsertWithRelocation,
      Vector.InsertWithoutRelocation]
    split <;> simp [List.eraseIdx_insertIdx]
  · simp [Vector.size, Vector.Insert, Vector.Emplace, Vector.Erase,
      Vector.InsertWithRelocation, Vector.InsertWithoutRelocation]
    split <;> simp [List.eraseIdx_insertIdx]

/-- Helper: `Emplace` preserves the structural invariant. -/
theorem emplace_inv {α : Type} (v : Vector α) (pos : Nat) (x : α)
    (hv : v.Inv) (hpos : pos ≤ v.size) : (v.Emplace pos x).1.Inv := by
  obtain ⟨es, c⟩ := v
  have hv' : es.length ≤ c := hv
  have hpos' : pos ≤ es.length := hpos
  simp only [Vector.Emplace, Vector.Inv, Vector.size, Vector.Capacity,
    Vector.InsertWithoutRelocation, Vector.InsertWithRelocation]
  split
  · next h =>
    simp only []
    rw [List.length_insertIdx pos es hpos']
    split <;> omega
  · next h =>
    simp only []
    rw [List.length_insertIdx pos es hpos']
    omega

/-- Helper: copy assignment preserves the structural invariant. -/
theorem opAssignCopy_inv {α : Type} (b : Bool) (v w : Vector α)
    (hv : v.Inv) (hw : w.Inv) : (Vector.opAssignCopy b v w).Inv := by
  obtain ⟨es, c⟩ := v
  obtain ⟨fs, d⟩ := w
  have hv' : es.length ≤ c := hv
  have hw' : fs.length ≤ d := hw
  simp only [Vector.opAssignCopy, Vector.Inv, Vector.size, Vector.Capacity,
    Vector.Swap, Vector.copyOf]
  split
  · exact hv'
  · split
    · next hbig => simp
    · next hbig =>
      split <;> simp <;> omega

/-- Helper: `Resize` preserves the structural invariant. -/
theorem resize_inv {α : Type} [Inhabited α] (v : Vector α) (n : Nat)
    (hv : v.Inv) : (v.Resize n).Inv := by
  obtain ⟨es, c⟩ := v
  have hv' : es.length ≤ c := hv
  simp only [Vector.Resize, Vector.Reserve, Vector.Inv, Vector.size, Vector.Capacity]
  split
  · next h => simp; omega
  · next h =>
    split
    · next hgt =>
      split
      · next hle => simp at hle ⊢; omega
      · next hle => simp at hle ⊢; omega
    · next hgt => simp; omega

/-- C2: every public operation preserves the structural invariant
`size ≤ capacity` (the model keeps exactly the live slots `[0, size)`, so
the liveness half of the invariant is the state representation itself). -/
theorem invariant_preservation (v w : Vector Nat) (b : Bool) (n pos x : Nat)
    (hv : v.Inv) (hw : w.Inv) (hpos : pos ≤ v.size) :
    (Vector.empty : Vector Nat).Inv
    ∧ (Vector.mkSized n : Vector Nat).Inv
    ∧ (Vector.copyOf v).Inv
    ∧ ((Vector.moveOf v).1.Inv ∧ (Vector.moveOf v).2.Inv)
    ∧ (Vector.opAssignCopy b v w).Inv
    ∧ ((Vector.opAssignMove b v w).1.Inv ∧ (Vector.opAssignMove b v w).2.Inv)
    ∧ (v.Reserve n).Inv
    ∧ (v.Resize n).Inv
    ∧ (v.PushBack x).Inv
    ∧ (v.EmplaceBack x).1.Inv
    ∧ (0 < v.size → v.PopBack.Inv)
    ∧ (v.Emplace pos x).1.Inv
    ∧ (v.Insert pos x).1.Inv
    ∧ (pos < v.size → (v.Erase pos).1.Inv)
    ∧ ((Vector.Swap v w).1.Inv ∧ (Vector.Swap v w).2.Inv) := by
  refine ⟨by decide, ?_, ?_, ⟨hv, ?_⟩, opAssignCopy_inv b v w hv hw, ?_, ?_,
    resize_inv v n hv, emplace_inv v v.size x hv (Nat.le_refl _),
    emplace_inv v v.size x hv (Nat.le_refl _), ?_, emplace_inv v pos x hv hpos,
    emplace_inv v pos x hv hpos, ?_, ?_⟩
  · simp [Vector.mkSized, Vector.Inv, Vector.size, Vector.Capacity]
  · simp [Vector.copyOf, Vector.Inv, Vector.size, Vector.Capacity]
  · simp [Vector.moveOf, Vector.Inv, Vector.size, Vector.Capacity]
  · cases b
    · exact ⟨hw, hv⟩
    · exact ⟨hv, hw⟩
  · obtain ⟨es, c⟩ := v
    have hv' : es.length ≤ c := hv
    simp only [Vector.Reserve]
    split
    · exact hv
    · next h =>
      simp [Vector.Inv, Vector.size, Vector.Capacity] at h ⊢
      omega
  · intro h
    obtain ⟨es, c⟩ := v
    have hv' : es.length ≤ c := hv
    simp [Vector.PopBack, Vector.Inv, Vector.size, Vector.Capacity]
    omega
  · intro h
    obtain ⟨es, c⟩ := v
    have hv' : es.length ≤ c := hv
    have h' : pos < es.length := h
    simp [Vector.Erase, Vector.Inv, Vector.size, Vector.Capacity,
      List.length_eraseIdx, h']
    omega
  · exact ⟨hw, hv⟩

/-- C2 witness extracting the first conjunct at concrete inputs. -/
theorem invariant_preservation_witness : (Vector.empty : Vector Nat).Inv :=
  (invariant_preservation { elems := [1], cap := 2 } { elems := [2, 3], cap := 2 }
    false 3 1 5 (by decide) (by decide) (by decide)).1

/-- Helper: with an infallible copy function the element-wise copy
construction reproduces the source. -/
theorem uninitializedCopyF_pure {α ε : Type} (l : List α) :
    Vector.uninitializedCopyF (fun a => (Except.ok a : Except ε α)) l = Except.ok l := by
  induction l with
  | nil => rfl
  | cons x xs ih => simp [Vector.uninitializedCopyF, ih]

/-- Helper: with an infallible copy the assignment loop overwrites the
destination by the equally long source prefix. -/
theorem assignLoopF_pure {α ε : Type} (dst src : List α) (h : dst.length = src.length) :
    Vector.assignLoopF (fun a => (Except.ok a : Except ε α)) dst src = Except.ok src := by
  induction dst generalizing src with
  | nil =>
    cases src with
    | nil => rfl
    | cons s ss => simp at h
  | cons d ds ih =>
    cases src with
    | nil => simp at h
    | cons s ss =>
      simp only [List.length_cons, Nat.add_right_cancel_iff] at h
      simp [Vector.assignLoopF, ih ss h]

/-- C5: copy assignment builds a temporary and swaps when the right-hand
size exceeds the capacity, so a failed element copy leaves the original
container untouched (strong guarantee); otherwise it assigns in place over
the common prefix, destroys the excess or copy-constructs the missing tail,
and sets the size to the right-hand size; with infallible copies the
fallible model agrees with the pure one. -/
theorem copy_assignment_spec (lhs rhs : Vector Nat) (f : Nat → Except Unit Nat) :
    (lhs.Capacity < rhs.size →
      ∀ e, Vector.opAssignCopyF f lhs rhs = Except.error e → e = lhs)
    ∧ (rhs.size ≤ lhs.Capacity →
        Vector.opAssignCopy false lhs rhs = { elems := rhs.elems, cap := lhs.cap })
    ∧ (lhs.Capacity < rhs.size →
        Vector.opAssignCopy false lhs rhs = { elems := rhs.elems, cap := rhs.size })
    ∧ (Vector.opAssignCopy false lhs rhs).size = rhs.size
    ∧ Vector.opAssignCopyF (fun a => (Except.ok a : Except Unit Nat)) lhs rhs
        = Except.ok (Vector.opAssignCopy false lhs rhs) := by
  have key2 : rhs.size ≤ lhs.Capacity →
      Vector.opAssignCopy false lhs rhs = { elems := rhs.elems, cap := lhs.cap } := by
    intro h
    obtain ⟨es, c⟩ := lhs
    obtain ⟨fs, d⟩ := rhs
    have h' : fs.length ≤ c := h
    simp only [Vector.opAssignCopy, Vector.size, Vector.Capacity, Bool.false_eq_true,
      if_false, gt_iff_lt, Nat.not_lt.mpr h', if_neg (Nat.not_lt.mpr h')]
    split
    · next hs =>
      rw [Nat.min_eq_right (Nat.le_of_lt hs), List.take_length, List.take_left]
    · next hs =>
      rw [Nat.min_eq_left (Nat.le_of_not_lt hs), List.drop_length, List.append_nil,
        List.take_append_drop]
  have key3 : lhs.Capacity < rhs.size →
      Vector.opAssignCopy false lhs rhs = { elems := rhs.elems, cap := rhs.size } := by
    intro h
    simp only [Vector.opAssignCopy, Bool.false_eq_true, if_false, gt_iff_lt, if_pos h,
      Vector.Swap, Vector.copyOf]
  have key1 : lhs.Capacity < rhs.size →
      ∀ e, Vector.opAssignCopyF f lhs rhs = Except.error e → e = lhs := by
    intro h e he
    unfold Vector.opAssignCopyF at he
    rw [if_pos h] at he
    cases hc : Vector.copyOfF f rhs with
    | error e1 =>
      rw [hc] at he
      exact (Except.error.inj he).symm
    | ok c1 =>
      rw [hc] at he
      simp at he
  have key4 : (Vector.opAssignCopy false lhs rhs).size = rhs.size := by
    by_cases hbig : lhs.Capacity < rhs.size
    · rw [key3 hbig]; rfl
    · rw [key2 (Nat.le_of_not_lt hbig)]; rfl
  have key5 : Vector.opAssignCopyF (fun a => (Except.ok a : Except Unit Nat)) lhs rhs
      = Except.ok (Vector.opAssignCopy false lhs rhs) := by
    by_cases hbig : lhs.Capacity < rhs.size
    · simp only [Vector.opAssignCopyF, Vector.copyOfF, gt_iff_lt, if_pos hbig,
        uninitializedCopyF_pure]
      rw [key3 hbig]
      rfl
    · have hlen : (lhs.elems.take (min lhs.size rhs.size)).length
          = (rhs.elems.take (min lhs.size rhs.size)).length := by
        simp only [List.length_take, Vector.size]
        omega
      simp only [Vector.opAssignCopyF, gt_iff_lt, if_neg hbig,
        assignLoopF_pure _ _ hlen, uninitializedCopyF_pure]
      simp only [Vector.opAssignCopy, Bool.false_eq_true, if_false, gt_iff_lt,
        if_neg hbig]
      split <;> rfl
  exact ⟨key1, key2, key3, key4, key5⟩

/-- C5 witness at concrete inputs: an in-place assignment, a reallocating
assignment, and a failing copy that leaves the original untouched. -/
theorem copy_assignment_spec_witness :
    Vector.opAssignCopy false ({ elems := [1, 2, 3], cap := 3 } : Vector Nat)
        { elems := [7], cap := 1 } = { elems := [7], cap := 3 }
    ∧ Vector.opAssignCopy false ({ elems := [], cap := 0 } : Vector Nat)
        { elems := [7, 8], cap := 2 } = { elems := [7, 8], cap := 2 }
    ∧ ∀ e, Vector.opAssignCopyF
        (fun a => if a = 8 then Except.error () else Except.ok a)
        ({ elems := [], cap := 0 } : Vector Nat) { elems := [7, 8], cap := 2 }
          = Except.error e → e = { elems := [], cap := 0 } :=
  ⟨(copy_assignment_spec { elems := [1, 2, 3], cap := 3 } { elems := [7], cap := 1 }
      (fun a => Except.ok a)).2.1 (by decide),
   (copy_assignment_spec { elems := [], cap := 0 } { elems := [7, 8], cap := 2 }
      (fun a => Except.ok a)).2.2.1 (by decide),
   (copy_assignment_spec { elems := [], cap := 0 } { elems := [7, 8], cap := 2 }
      (fun a => if a = 8 then Except.error () else Except.ok a)).1 (by decide)⟩

/-- C9: self-assignment, both copy and move, leaves the container unchanged
(the code guards on `this != &rhs`; for copy assignment the in-place branch
would be an identity as well). -/
theorem self_assignment_noop (v : Vector Nat) (hInv : v.Inv) :
    Vector.opAssignCopy true v v = v
    ∧ Vector.opAssignMove true v v = (v, v)
    ∧ Vector.opAssignCopy false v v = v
    ∧ Vector.opAssignMove false v v = (v, v) := by
  refine ⟨rfl, rfl, ?_, rfl⟩
  obtain ⟨es, c⟩ := v
  have hle : es.length ≤ c := hInv
  simp [Vector.opAssignCopy, Vector.size, Vector.Capacity, Nat.not_lt.mpr hle]

/-- Helper: both branches of `Emplace` insert the new element at
`iterator_pos`. -/
theorem emplace_elems {α : Type} (v : Vector α) (pos : Nat) (x : α) :
    (v.Emplace pos x).1.elems = v.elems.insertIdx pos x := by
  simp only [Vector.Emplace, Vector.InsertWithoutRelocation, Vector.InsertWithRelocation]
  split <;> rfl

/-- Helper: reading back the slot an in-bounds insertion filled. -/
theorem getElem?_insertIdx_self_of_le {α : Type} (l : List α) (x : α) (pos : Nat)
    (h : pos ≤ l.length) : (l.insertIdx pos x)[pos]? = some x := by
  have hlen := List.length_insertIdx (a := x) pos l h
  rw [List.getElem?_eq_getElem (by omega)]
  rw [List.getElem_insertIdx_self l x pos h]

/-- C10: `Emplace`/`Insert` return an iterator at offset `pos` denoting the
new element, `EmplaceBack` returns a reference to the appended last element,
and `Erase` returns an iterator at the erased offset, denoting the element
that followed the removed one (or `end()` when the last element was
removed). -/
theorem return_values (v : Vector Nat) (pos x : Nat) (hpos : pos ≤ v.size) :
    (v.Emplace pos x).2 = pos
    ∧ ((v.Emplace pos x).1.elems)[pos]? = some x
    ∧ (v.Insert pos x).2 = pos
    ∧ (v.EmplaceBack x).2 = v.size
    ∧ ((v.EmplaceBack x).1.elems)[v.size]? = some x
    ∧ (v.EmplaceBack x).1.size = v.size + 1
    ∧ (v.Erase pos).2 = pos
    ∧ ((v.Erase pos).1.elems)[pos]? = v.elems[pos + 1]?
    ∧ (pos + 1 = v.size → (v.Erase pos).2 = (v.Erase pos).1.size) := by
  refine ⟨rfl, ?_, rfl, rfl, ?_, ?_, rfl, ?_, ?_⟩
  · rw [emplace_elems]
    exact getElem?_insertIdx_self_of_le v.elems x pos hpos
  · show ((v.Emplace v.size x).1.elems)[v.size]? = some x
    rw [emplace_elems]
    exact getElem?_insertIdx_self_of_le v.elems x v.size (Nat.le_refl _)
  · show (v.Emplace v.size x).1.elems.length = v.size + 1
    rw [emplace_elems]
    exact List.length_insertIdx (a := x) v.size v.elems (Nat.le_refl _)
  · exact List.getElem?_eraseIdx_of_ge v.elems pos pos (Nat.le_refl _)
  · intro h
    have h' : pos + 1 = v.elems.length := h
    show pos = (v.elems.eraseIdx pos).length
    rw [List.length_eraseIdx]
    have hlt : pos < v.elems.length := by omega
    simp [hlt]
    omega

/-- C10 witness at concrete inputs. -/
theorem return_values_witness :
    ((({ elems := [3, 4, 5], cap := 4 } : Vector Nat).Emplace 1 9).1.elems)[1]? = some 9
    ∧ ((({ elems := [3, 4, 5], cap := 4 } : Vector Nat).Erase 1).1.elems)[1]?
        = ([3, 4, 5] : List Nat)[2]? :=
  ⟨(return_values { elems := [3, 4, 5], cap := 4 } 1 9 (by decide)).2.1,
   (return_values { elems := [3, 4, 5], cap := 4 } 1 9 (by decide)).2.2.2.2.2.2.2.1⟩

/-- Helper: the move-relocation primitive fills the new arena with the first
`n` source values. -/
theorem uninitialized_move_n_fst {α : Type} (l : List α) (n : Nat) :
    (Vector.uninitialized_move_n l n).1 = l.take n := by
  induction l generalizing n with
  | nil => cases n <;> simp [Vector.uninitialized_move_n]
  | cons x xs ih => cases n <;> simp [Vector.uninitialized_move_n, ih]

/-- Helper: the copy-relocation primitive fills the new arena with the first
`n` source values. -/
theorem uninitialized_copy_n_fst {α : Type} (l : List α) (n : Nat) :
    (Vector.uninitialized_copy_n l n).1 = l.take n := by
  induction l generalizing n with
  | nil => cases n <;> simp [Vector.uninitialized_copy_n]
  | cons x xs ih => cases n <;> simp [Vector.uninitialized_copy_n, ih]

/-- C8: the move-based and the copy-based relocation strategies produce the
same observable container (size, capacity and element sequence) on every
successful growth operation, and both agree with the value-level model of
`Reserve` and of the reallocating insertion path. -/
theorem relocation_strategy_equiv (s1 s2 : Bool) (v : Vector Nat) (n pos x : Nat)
    (hpos : pos ≤ v.size) :
    (Vector.ReserveStrat s1 v n = Vector.ReserveStrat s2 v n
      ∧ Vector.InsertWithoutRelocationStrat s1 v pos x
          = Vector.InsertWithoutRelocationStrat s2 v pos x)
    ∧ Vector.ReserveStrat s1 v n = v.Reserve n
    ∧ Vector.InsertWithoutRelocationStrat s1 v pos x = v.InsertWithoutRelocation pos x := by
  have hfill : ∀ (s : Bool) (l : List Nat) (m : Nat),
      (Vector.FillNewData s l m).1 = l.take m := by
    intro s l m
    cases s <;> simp [Vector.FillNewData, uninitialized_move_n_fst, uninitialized_copy_n_fst]
  have hres : ∀ s : Bool, Vector.ReserveStrat s v n = v.Reserve n := by
    intro s
    simp only [Vector.ReserveStrat, Vector.Reserve]
    split
    · rfl
    · rw [hfill]
      simp [Vector.size]
  have hins : ∀ s : Bool,
      Vector.InsertWithoutRelocationStrat s v pos x = v.InsertWithoutRelocation pos x := by
    intro s
    obtain ⟨es, c⟩ := v
    have hpos' : pos ≤ es.length := hpos
    have htail : ∀ s1' : Bool,
        (if s1' then Vector.uninitialized_move_n (es.drop pos) (es.length - pos)
         else Vector.uninitialized_copy_n (es.drop pos) (es.length - pos)).1
          = es.drop pos := by
      intro s1'
      have hlen : es.length - pos = (es.drop pos).length := (List.length_drop pos es).symm
      cases s1' <;>
        simp only [if_true, if_false, uninitialized_move_n_fst, uninitialized_copy_n_fst,
          Bool.false_eq_true] <;>
        rw [hlen, List.take_length]
    simp only [Vector.InsertWithoutRelocationStrat, Vector.InsertWithoutRelocation,
      Vector.size, hfill, htail, Vector.mk.injEq,
      insertIdx_eq_take_cons_drop es pos x hpos']
  exact ⟨⟨(hres s1).trans (hres s2).symm, (hins s1).trans (hins s2).symm⟩, hres s1, hins s1⟩

/-- C8 witness at concrete inputs: move and copy strategies coincide. -/
theorem relocation_strategy_equiv_witness :
    Vector.ReserveStrat true ({ elems := [1, 2], cap := 2 } : Vector Nat) 5
      = Vector.ReserveStrat false ({ elems := [1, 2], cap := 2 } : Vector Nat) 5
    ∧ Vector.InsertWithoutRelocationStrat true ({ elems := [1, 2], cap := 2 } : Vector Nat) 1 9
      = Vector.InsertWithoutRelocationStrat false ({ elems := [1, 2], cap := 2 } : Vector Nat) 1 9 :=
  (relocation_strategy_equiv true false { elems := [1, 2], cap := 2 } 5 1 9 (by decide)).1

/-- C6 probe: the in-place insertion rollback.  First conjunct — the
documented failing input: size 2, capacity 3, insertion at position 0, with
the first shift assignment (throwing step 2) failing; the trailing slot
(index 2) is already constructed at that moment, yet the catch handler
raw-releases it (no destructor call).  Second conjunct — a failure in the
temporary's constructor (step 0) reaches the handler with the trailing slot
still raw, the situation the claim describes. -/
theorem inplace_insert_rollback_probe :
    (InsertWithRelocationProbe 2 3 0 2
      = Except.error
          { slots := [SlotState.constructed, SlotState.constructed, SlotState.constructed],
            events := [RollbackEvent.rawRelease 2] })
    ∧ (InsertWithRelocationProbe 2 3 0 0
      = Except.error
          { slots := [SlotState.constructed, SlotState.constructed, SlotState.raw],
            events := [RollbackEvent.rawRelease 2] }) :=
  ⟨rfl, rfl⟩

/-- C9 witness at a concrete container. -/
theorem self_assignment_noop_witness :
    Vector.opAssignCopy true ({ elems := [1, 2], cap := 2 } : Vector Nat)
      { elems := [1, 2], cap := 2 } = { elems := [1, 2], cap := 2 } :=
  (self_assignment_noop { elems := [1, 2], cap := 2 } (by decide)).1

end AdvancedVector
